import Mathlib

/-!
Verification development for the ESPRating inventory validation-and-staging
pipeline (`fixed_code/data_validator.py`, `fixed_code/inventory_processor.py`,
`fixed_code/upload_handler.py`).

The tabular dataset is embedded column-major, mirroring a pandas DataFrame
(a mapping from column name to a series of cells); row identity is the
0-based positional index, matching the default RangeIndex the pipeline uses.
Numeric cells are modelled as rationals; `pandas.to_numeric(errors="coerce")`
is embedded as a per-cell parser for ordinary decimal literals (optional
sign, digits, optional fractional part, surrounding whitespace); exponent
and infinity forms are outside the inputs the pipeline's rules distinguish.
File I/O, logging and the human-readable report strings
(`generate_validation_report`, `generate_summary_report`) are external
plumbing and are not part of the embedded core; `process_inventory` is
modelled on an already-parsed dataset, with the emptiness rejection that
`read_inventory_file` performs folded in front, as the orchestrator contract
specifies. Column names are assumed unique, as produced by the reader.
-/

/-- A cell value: integer, floating-point number, boolean, string, or
absent (pandas `NaN`). -/
inductive Value where
  | int (i : Int)
  | num (q : ℚ)
  | bool (b : Bool)
  | str (s : String)
  | null
deriving DecidableEq, Repr

/-- A dataset, column-major like a pandas DataFrame: an ordered list of
(column name, cells) pairs.  Row identity is the 0-based position. -/
structure Dataset where
  cols : List (String × List Value)
deriving DecidableEq, Repr

def Value.isNull : Value → Bool
  | .null => true
  | _ => false

instance exceptDecEq {ε α : Type} [DecidableEq ε] [DecidableEq α] :
    DecidableEq (Except ε α)
  | .error e, .error f =>
      if h : e = f then .isTrue (by rw [h]) else .isFalse (by intro hh; cases hh; exact h rfl)
  | .error _, .ok _ => .isFalse (fun h => Except.noConfusion h)
  | .ok _, .error _ => .isFalse (fun h => Except.noConfusion h)
  | .ok a, .ok b =>
      if h : a = b then .isTrue (by rw [h]) else .isFalse (by intro hh; cases hh; exact h rfl)

/-- Column names of a dataset (`df.columns`). -/
def colNames (d : Dataset) : List String := d.cols.map (fun c => c.1)

/-- `df[name]`: the cells of the first column with the given name. -/
def getCol (d : Dataset) (name : String) : Option (List Value) :=
  (d.cols.find? (fun c => c.1 == name)).map (fun c => c.2)

/-- The cell of column `name` at row `i`. -/
def getCell (d : Dataset) (name : String) (i : ℕ) : Option Value :=
  (getCol d name).bind (fun cells => cells.get? i)

/-- Number of rows (`len(df)`), read off the first column. -/
def nrows (d : Dataset) : ℕ :=
  match d.cols with
  | [] => 0
  | c :: _ => c.2.length

/-- `df.empty`: no columns or no rows. -/
def isEmptyDf (d : Dataset) : Bool := d.cols.isEmpty || nrows d == 0

/-- Whitespace characters stripped by the numeric parser and matched by the
regex class `\s` (ASCII range). -/
def isWsChar (c : Char) : Bool :=
  c = ' ' || c = '\t' || c = '\n' || c = '\r' || c = '\x0b' || c = '\x0c'

/-- Digits of a numeral read as a natural number. -/
def digitsToNat (l : List Char) : ℕ :=
  l.foldl (fun acc c => acc * 10 + (c.toNat - '0'.toNat)) 0

/-- Unsigned decimal literal: digits with an optional single fractional
part, at least one digit overall (`"12"`, `"1.5"`, `".5"`, `"5."`).
Returns the mantissa and the power of ten it is scaled by. -/
def parseDecimal (l : List Char) : Option (ℕ × ℕ) :=
  let ip := l.takeWhile Char.isDigit
  let rest := l.dropWhile Char.isDigit
  match rest with
  | [] => if ip.isEmpty then none else some (digitsToNat ip, 1)
  | '.' :: fp =>
      if (!ip.isEmpty || !fp.isEmpty) && fp.all Char.isDigit then
        some (digitsToNat ip * 10 ^ fp.length + digitsToNat fp, 10 ^ fp.length)
      else none
  | _ => none

/-- Parse a string as a number the way `pandas.to_numeric` accepts ordinary
decimal literals: surrounding whitespace stripped, optional sign, digits
with an optional fractional part. -/
def parseNumString (s : String) : Option ℚ :=
  let t := ((s.data.dropWhile isWsChar).reverse.dropWhile isWsChar).reverse
  match t with
  | '-' :: rest => (parseDecimal rest).map (fun nd => mkRat (-(nd.1 : ℤ)) nd.2)
  | '+' :: rest => (parseDecimal rest).map (fun nd => mkRat (nd.1 : ℤ) nd.2)
  | l => (parseDecimal l).map (fun nd => mkRat (nd.1 : ℤ) nd.2)

/-- Per-cell embedding of `pd.to_numeric(·, errors="coerce")`: numbers pass
through, booleans become 0/1, nulls stay null (`none`), strings are parsed,
anything unparsable becomes null. -/
def toNumeric : Value → Option ℚ
  | .int i => some (i : ℚ)
  | .num q => some q
  | .bool b => some (if b then 1 else 0)
  | .null => none
  | .str s => parseNumString s

/-- Decimal digits of the fractional part `r/d` by long division
(`fuel` bounds the number of digits). -/
def fracDigits : ℕ → ℕ → ℕ → String
  | _, _, 0 => ""
  | 0, _, _ + 1 => ""
  | r, d, fuel + 1 =>
      let r10 := r * 10
      toString (r10 / d) ++ fracDigits (r10 % d) d fuel

/-- String form of a float cell (`str(2.5) = "2.5"`, `str(2.0) = "2.0"`):
always contains a decimal point. -/
def floatRepr (q : ℚ) : String :=
  let sign := if q < 0 then "-" else ""
  let n := q.num.natAbs
  let d := q.den
  let fr := if n % d = 0 then "0" else fracDigits (n % d) d 17
  sign ++ toString (n / d) ++ "." ++ fr

/-- `astype(str)` of a cell: `str(value)` per cell, `NaN` rendered `"nan"`. -/
def valueStr : Value → String
  | .int i => toString i
  | .num q => floatRepr q
  | .bool b => if b then "True" else "False"
  | .null => "nan"
  | .str s => s

/-- Full match of the regex `^-?\d+$`: optional leading minus sign then one
or more decimal digits, nothing else. -/
def isIntString (s : String) : Bool :=
  match s.data with
  | [] => false
  | '-' :: rest => !rest.isEmpty && rest.all Char.isDigit
  | l => l.all Char.isDigit

/-- Characters allowed by the `Class` rule: the complement of the regex
class `[^a-zA-Z0-9\s,]`. -/
def isAllowedClassChar (c : Char) : Bool :=
  c.isAlpha || c.isDigit || isWsChar c || c = ','

/-- `df["Class"].str.contains(r"[^a-zA-Z0-9\s,]", na=False)` per cell:
only string cells can match; nulls and non-strings never do. -/
def hasSpecialChars : Value → Bool
  | .str s => s.data.any (fun c => !isAllowedClassChar c)
  | _ => false

/-- Indices (from `k`) of the elements satisfying `p`: the embedding of a
boolean mask's `df[mask].index.tolist()`. -/
def idxWhereAux (p : α → Bool) : List α → ℕ → List ℕ
  | [], _ => []
  | a :: as, k => (if p a then [k] else []) ++ idxWhereAux p as (k + 1)

def idxWhere (p : α → Bool) (l : List α) : List ℕ := idxWhereAux p l 0

/-- One `missing_values` issue entry: field, count and affected rows. -/
structure MissingEntry where
  field : String
  count : ℕ
  rows : List ℕ
deriving DecidableEq, Repr

/-- One `data_type_issues` entry: field, expected type and failing rows. -/
structure TypeEntry where
  field : String
  expected_type : String
  rows : List ℕ
deriving DecidableEq, Repr

/-- One `special_character_issues` entry: field and affected rows. -/
structure SpecialEntry where
  field : String
  rows : List ℕ
deriving DecidableEq, Repr

/-- The issue report: the five categories of `DataValidator.validate_data`.
`price_below_cost` and `column_name_issues` are flat lists; the others hold
per-column entries (the asymmetry of the source is preserved). -/
structure Issues where
  missing_values : List MissingEntry
  data_type_issues : List TypeEntry
  price_below_cost : List ℕ
  column_name_issues : List String
  special_character_issues : List SpecialEntry
deriving DecidableEq, Repr

def emptyIssues : Issues := ⟨[], [], [], [], []⟩

/-- `all(len(issue_list) == 0 for issue_list in issues.values())`. -/
def Issues.passed (is : Issues) : Bool :=
  is.missing_values.isEmpty && is.data_type_issues.isEmpty &&
  is.price_below_cost.isEmpty && is.column_name_issues.isEmpty &&
  is.special_character_issues.isEmpty

/-- `DataValidator.required_fields`. -/
def required_fields : List String :=
  ["Year", "Stock #", "VIN", "Make", "Model", "Price", "Unit Cost"]

/-- `DataValidator.expected_types` (note the embedded newline characters in
the J.D. Power column names, exactly as in the source). -/
def expected_types : List (String × String) :=
  [("Year", "int"), ("Odometer", "int"), ("Price", "numeric"),
   ("Unit Cost", "numeric"), ("J.D. Power\nTrade In", "numeric"),
   ("J.D. Power\nRetail Clean", "numeric")]

/-- Rows whose cell is null (`df[df[field].isnull()].index.tolist()`). -/
def nullRows (cells : List Value) : List ℕ := idxWhere Value.isNull cells

/-- Rows failing the `numeric` type check: non-null and not parseable
(`~df[col].isnull() & pd.to_numeric(df[col], errors="coerce").isnull()`). -/
def badNumericRows (cells : List Value) : List ℕ :=
  idxWhere (fun v => !v.isNull && (toNumeric v).isNone) cells

/-- Rows failing the `int` type check: non-null and the string form does not
match `^-?\d+$`. -/
def badIntRows (cells : List Value) : List ℕ :=
  idxWhere (fun v => !v.isNull && !isIntString (valueStr v)) cells

/-- Price-below-cost predicate on a (Price, Unit Cost) cell pair after
numeric coercion: both non-null and price strictly below cost. -/
def pbcPred (pc : Value × Value) : Bool :=
  match toNumeric pc.1, toNumeric pc.2 with
  | some p, some c => decide (p < c)
  | _, _ => false

/-- `DataValidator.validate_data`: the five rules, each silently skipping
columns absent from the dataset, and the pass/fail verdict. -/
def validate_data (d : Dataset) : Bool × Issues :=
  let missing := required_fields.filterMap (fun f =>
    match getCol d f with
    | none => none
    | some cells =>
        let rows := nullRows cells
        if rows.isEmpty then none else some ⟨f, rows.length, rows⟩)
  let dtype := expected_types.filterMap (fun ct =>
    match getCol d ct.1 with
    | none => none
    | some cells =>
        if ct.2 = "int" then
          let rows := badIntRows cells
          if rows.isEmpty then none else some ⟨ct.1, ct.2, rows⟩
        else
          let rows := badNumericRows cells
          if rows.isEmpty then none else some ⟨ct.1, ct.2, rows⟩)
  let pbc :=
    match getCol d "Price", getCol d "Unit Cost" with
    | some ps, some cs => idxWhere pbcPred (ps.zip cs)
    | _, _ => []
  let colIssues := (colNames d).filter (fun c => c.data.contains '\n')
  let special :=
    match getCol d "Class" with
    | none => []
    | some cells =>
        let rows := idxWhere hasSpecialChars cells
        if rows.isEmpty then ([] : List SpecialEntry) else [⟨"Class", rows⟩]
  let issues : Issues := ⟨missing, dtype, pbc, colIssues, special⟩
  (issues.passed, issues)

/-- A column name with every newline character replaced by a space
(`col.replace("\n", " ")`). -/
def cleanName (s : String) : String :=
  String.mk (s.data.map (fun ch => if ch = '\n' then ' ' else ch))

/-- `DataValidator.clean_column_names`: renames every column by replacing
newlines with spaces; cell values untouched. -/
def clean_column_names (d : Dataset) : Dataset :=
  ⟨d.cols.map (fun c => (cleanName c.1, c.2))⟩

/-- The expected type declared for a column name, if any
(`col in expected_types`, reading the dict). -/
def lookupExpected (name : String) : Option String :=
  (expected_types.find? (fun ct => ct.1 == name)).map (fun ct => ct.2)

/-- Conversion of one column's cells per its expected type.  `numeric`:
`pd.to_numeric(errors="coerce")`, unparsable values become null.  `int`:
the same coercion followed by `astype("Int64")`, which succeeds only when
every parsed value is a whole number and raises the pandas cast error
otherwise. -/
def convertColumn (ty : String) (cells : List Value) : Except String (List Value) :=
  if ty = "int" then
    let parsed := cells.map toNumeric
    if parsed.all (fun o => o.all (fun q => decide (q.den = 1))) then
      .ok (parsed.map (fun o =>
        match o with
        | some q => Value.int q.num
        | none => Value.null))
    else .error "cannot safely cast non-equivalent float64 to int64"
  else
    .ok (cells.map (fun v =>
      match toNumeric v with
      | some q => Value.num q
      | none => Value.null))

/-- Fallible map over a list, short-circuiting on the first error: the
embedding of a loop whose body may raise. -/
def mapExcept (f : α → Except ε β) : List α → Except ε (List β)
  | [] => .ok []
  | a :: as =>
      match f a with
      | .error e => .error e
      | .ok b => (mapExcept f as).map (fun bs => b :: bs)

/-- One column of `convert_data_types`: schema columns are converted,
others pass through unchanged. -/
def convertStep (c : String × List Value) : Except String (String × List Value) :=
  match lookupExpected c.1 with
  | some ty => (convertColumn ty c.2).map (fun cells => (c.1, cells))
  | none => .ok c

/-- `DataValidator.convert_data_types`: each schema column present is
coerced to its expected type; any cast failure propagates as an error
(the source does not catch it). -/
def convert_data_types (d : Dataset) : Except String Dataset :=
  (mapExcept convertStep d.cols).map (fun cols => ⟨cols⟩)

/-- Numeric in pandas' dtype sense: a column of numbers and nulls
(int64/float64), or a column of booleans (bool dtype); any string makes the
dtype object, which is not numeric. -/
def Value.isNumLike : Value → Bool
  | .int _ => true
  | .num _ => true
  | .null => true
  | _ => false

def Value.isBoolVal : Value → Bool
  | .bool _ => true
  | _ => false

def isNumericDtypeCells (cells : List Value) : Bool :=
  cells.all Value.isNumLike || cells.all Value.isBoolVal

def cellToQ : Value → Option ℚ
  | .int i => some (i : ℚ)
  | .num q => some q
  | .bool b => some (if b then 1 else 0)
  | _ => none

def insertQ (q : ℚ) : List ℚ → List ℚ
  | [] => [q]
  | x :: xs => if q ≤ x then q :: x :: xs else x :: insertQ q xs

def sortQ (l : List ℚ) : List ℚ := l.foldr insertQ []

/-- `Series.median()`: nulls skipped; none when no value remains; middle of
the sorted values, averaging the two middles on an even count. -/
def medianOfCells (cells : List Value) : Option ℚ :=
  let qs := cells.filterMap cellToQ
  if qs.isEmpty then none
  else
    let s := sortQ qs
    let n := s.length
    if n % 2 = 1 then some (s.getD (n / 2) 0)
    else some ((s.getD (n / 2 - 1) 0 + s.getD (n / 2) 0) / 2)

/-- One column of `InventoryProcessor.fix_missing_values`: `Drivetrain
Type` nulls become `"Unknown"`; the (cleaned-name) J.D. Power columns, when
their dtype is numeric, have nulls filled with the column's median (a
null-only column has a null median, so its fill is a no-op). -/
def fixColumn (col : String × List Value) : String × List Value :=
  if col.1 = "Drivetrain Type" then
    (col.1, col.2.map (fun v => if v.isNull then Value.str "Unknown" else v))
  else if (col.1 = "J.D. Power Trade In" || col.1 = "J.D. Power Retail Clean")
      && isNumericDtypeCells col.2 then
    match medianOfCells col.2 with
    | some m => (col.1, col.2.map (fun v => if v.isNull then Value.num m else v))
    | none => col
  else col

/-- `InventoryProcessor.fix_missing_values`, column by column. -/
def fix_missing_values (d : Dataset) : Dataset := ⟨d.cols.map fixColumn⟩

/-- The distinct affected rows counted by `process_inventory`: a Python
`set()` grown by the rows of `missing_values`, `data_type_issues`,
`price_below_cost` and `special_character_issues` entries
(`column_name_issues` has no branch in the source loop). -/
def countRecordsWithIssues (is : Issues) : ℕ :=
  let s : Finset ℕ := ∅
  let s := is.missing_values.foldl (fun acc e => acc ∪ e.rows.toFinset) s
  let s := is.data_type_issues.foldl (fun acc e => acc ∪ e.rows.toFinset) s
  let s := s ∪ is.price_below_cost.toFinset
  let s := is.special_character_issues.foldl (fun acc e => acc ∪ e.rows.toFinset) s
  s.card

/-- The results dictionary of `InventoryProcessor.process_inventory`
(the human-readable `validation_report` string is external plumbing and is
not modelled). -/
structure Results where
  success : Bool
  validation_passed : Bool
  validation_issues : Option Issues
  error_message : Option String
  records_processed : ℕ
  records_with_issues : ℕ
deriving DecidableEq, Repr

/-- `InventoryProcessor.process_inventory` on an already-parsed dataset:
the emptiness rejection performed by `read_inventory_file`, then column-name
cleaning, validation, the distinct-issue-row count, type conversion and
missing-value repair.  An uncaught conversion error aborts the run. -/
def process_inventory (d : Dataset) : Except String (Option Dataset × Results) :=
  if isEmptyDf d then
    .ok (none, { success := false, validation_passed := false,
                 validation_issues := none,
                 error_message := some "The inventory file is empty",
                 records_processed := 0, records_with_issues := 0 })
  else
    let n := nrows d
    let d1 := clean_column_names d
    let vr := validate_data d1
    let rwi := countRecordsWithIssues vr.2
    match convert_data_types d1 with
    | .error e => .error e
    | .ok d2 =>
        let d3 := fix_missing_values d2
        .ok (some d3, { success := true, validation_passed := vr.1,
                        validation_issues := some vr.2,
                        error_message := none,
                        records_processed := n, records_with_issues := rwi })

/-- Whether row `i` is flagged by any row-scoped issue category: the rows
whose `has_issues` marker `mark_records_with_issues` sets to true. -/
def rowFlagged (is : Issues) (i : ℕ) : Bool :=
  is.missing_values.any (fun e => e.rows.contains i) ||
  is.data_type_issues.any (fun e => e.rows.contains i) ||
  is.price_below_cost.contains i ||
  is.special_character_issues.any (fun e => e.rows.contains i)

/-- The accumulated `issue_type` reason string for row `i`, in the source's
category order (issue row lists produced by `validate_data` list each row
at most once, so membership captures the per-row loop). -/
def issueReason (is : Issues) (i : ℕ) : String :=
  let s := is.missing_values.foldl (fun acc e =>
    if e.rows.contains i then acc ++ "Missing " ++ e.field ++ "; " else acc) ""
  let s := is.data_type_issues.foldl (fun acc e =>
    if e.rows.contains i then acc ++ "Invalid " ++ e.field ++ " format; " else acc) s
  let s := if is.price_below_cost.contains i then s ++ "Price below cost; " else s
  is.special_character_issues.foldl (fun acc e =>
    if e.rows.contains i then acc ++ "Special characters in " ++ e.field ++ "; " else acc) s

/-- `UploadHandler.mark_records_with_issues`: appends the `has_issues` and
`issue_type` annotation columns (the dataset being annotated is assumed not
to carry a column of either name already, as pipeline datasets do not). -/
def mark_records_with_issues (d : Dataset) (is : Issues) : Dataset :=
  let n := nrows d
  ⟨d.cols ++
    [("has_issues", (List.range n).map (fun i => Value.bool (rowFlagged is i))),
     ("issue_type", (List.range n).map (fun i => Value.str (issueReason is i)))]⟩

/-- Numeric columns coerced by `format_for_upload` (cleaned names). -/
def uploadNumericCols : List String :=
  ["Year", "Odometer", "Price", "Unit Cost", "J.D. Power Trade In",
   "J.D. Power Retail Clean"]

/-- Text columns scrubbed by `format_for_upload`. -/
def uploadTextCols : List String :=
  ["Make", "Model", "Series", "Class", "Engine", "Body", "Transmission"]

/-- One character of the text scrub `str.replace(r"[^\w\s,.-]", " ")`. -/
def cleanTextChar (c : Char) : Char :=
  if c.isAlphanum || c = '_' || isWsChar c || c = ',' || c = '.' || c = '-' then c
  else ' '

/-- One column of `UploadHandler.format_for_upload`: the name cleaned of
newlines, the listed numeric columns re-coerced, `VIN` stringified, the
listed text columns scrubbed of problematic characters.  The affected
column sets are disjoint, so the source's sequential passes act
column-wise. -/
def formatColumn (col : String × List Value) : String × List Value :=
  if uploadNumericCols.contains (cleanName col.1) then
    (cleanName col.1, col.2.map (fun v =>
      match toNumeric v with
      | some q => Value.num q
      | none => Value.null))
  else if cleanName col.1 = "VIN" then
    (cleanName col.1, col.2.map (fun v => Value.str (valueStr v)))
  else if uploadTextCols.contains (cleanName col.1) then
    (cleanName col.1, col.2.map (fun v =>
      Value.str (String.mk ((valueStr v).data.map cleanTextChar))))
  else (cleanName col.1, col.2)

/-- `UploadHandler.format_for_upload`, column by column. -/
def format_for_upload (d : Dataset) : Dataset := ⟨d.cols.map formatColumn⟩

/-- The row labels `upload_inventory` keeps for the simulated upload: with
`skip_records_with_issues` and a `has_issues` column, the rows whose marker
is not true (`df[~df["has_issues"]]`, which retains original labels);
otherwise every row. -/
def uploadCleanRows (d : Dataset) (skip : Bool) : List ℕ :=
  if skip then
    match getCol d "has_issues" with
    | some cells => idxWhere (fun v => !(decide (v = Value.bool true))) cells
    | none => List.range (nrows d)
  else List.range (nrows d)

/-- The row labels `upload_inventory` skips (the flagged partition):
`df[df["has_issues"]]`. -/
def flaggedRows (d : Dataset) : List ℕ :=
  match getCol d "has_issues" with
  | some cells => idxWhere (fun v => decide (v = Value.bool true)) cells
  | none => []

/-- The results dictionary of `UploadHandler.upload_inventory` (simulated
upload: only counting, no transport; the exception path is unreachable in
the embedded core). -/
structure UploadResults where
  success : Bool
  records_uploaded : ℕ
  records_failed : ℕ
  error_message : Option String
deriving DecidableEq, Repr

def upload_inventory (d : Dataset) (skip : Bool) : UploadResults :=
  { success := true, records_uploaded := (uploadCleanRows d skip).length,
    records_failed := 0, error_message := none }

/-- `UploadHandler.prepare_for_upload`: process, annotate when validation
failed, then format for upload. -/
def prepare_for_upload (d : Dataset) : Except String (Option Dataset × Results) :=
  match process_inventory d with
  | .error e => .error e
  | .ok (od, r) =>
      if !r.success then .ok (none, r)
      else
        match od with
        | none => .ok (none, r)
        | some df =>
            let df1 := if !r.validation_passed then
                mark_records_with_issues df (r.validation_issues.getD emptyIssues)
              else df
            .ok (some (format_for_upload df1), r)

/-- The numeric value of column `name` at row `i` after coercion, null when
the column is absent, the row does not exist, or the value is unparsable. -/
def colNumAt (d : Dataset) (name : String) (i : ℕ) : Option ℚ :=
  (getCol d name).bind (fun cells => toNumeric (cells.getD i Value.null))

/-- Union of a list of row lists, as a set of row indices. -/
def rowsUnionList (rs : List (List ℕ)) : Finset ℕ :=
  rs.foldr (fun r acc => r.toFinset ∪ acc) ∅

/-- Stated from the spec: the set of affected row indices across exactly the
four row-scoped categories (`column_name_issues` is column-scoped and
excluded). -/
def allAffectedRows (is : Issues) : Finset ℕ :=
  rowsUnionList (is.missing_values.map (fun e => e.rows)) ∪
  rowsUnionList (is.data_type_issues.map (fun e => e.rows)) ∪
  is.price_below_cost.toFinset ∪
  rowsUnionList (is.special_character_issues.map (fun e => e.rows))

/-- Stated from the spec: what type conversion does to one cell — an
unparsable value becomes null, a parsed value becomes a nullable integer in
an `int` column and a number otherwise. -/
def convertedCellSpec (ty : String) (v v' : Value) : Prop :=
  (toNumeric v = none → v' = Value.null) ∧
  (∀ q, toNumeric v = some q →
    v' = if ty = "int" then Value.int q.num else Value.num q)

/-- Stated from the spec: what type conversion does to one column — schema
columns are converted cell by cell, others are untouched. -/
def convertedColumnSpec (c c' : String × List Value) : Prop :=
  c'.1 = c.1 ∧
  ((lookupExpected c.1 = none ∧ c' = c) ∨
   (∃ ty, lookupExpected c.1 = some ty ∧
      List.Forall₂ (convertedCellSpec ty) c.2 c'.2))

/-! ## Basic lemmas about the embedding -/

theorem mem_idxWhereAux {α : Type} {p : α → Bool} :
    ∀ {l : List α} {k i : ℕ},
      i ∈ idxWhereAux p l k ↔ ∃ j a, i = k + j ∧ l.get? j = some a ∧ p a = true := by
  intro l
  induction l with
  | nil => intro k i; simp [idxWhereAux]
  | cons a as ih =>
      intro k i
      simp only [idxWhereAux, List.mem_append]
      constructor
      · rintro (h | h)
        · by_cases hp : p a
          · simp [hp] at h
            exact ⟨0, a, by omega, rfl, hp⟩
          · simp [hp] at h
        · rcases ih.1 h with ⟨j, b, rfl, hg, hpb⟩
          exact ⟨j + 1, b, by omega, hg, hpb⟩
      · rintro ⟨j, b, hi, hg, hpb⟩
        cases j with
        | zero =>
            left
            simp only [List.get?] at hg
            injection hg with hab
            subst hab
            simp [hpb]
            omega
        | succ j' =>
            right
            exact ih.2 ⟨j', b, by omega, hg, hpb⟩

theorem mem_idxWhere {α : Type} {p : α → Bool} {l : List α} {i : ℕ} :
    i ∈ idxWhere p l ↔ ∃ a, l.get? i = some a ∧ p a = true := by
  unfold idxWhere
  rw [mem_idxWhereAux]
  constructor
  · rintro ⟨j, a, hi, hg, hp⟩
    have : j = i := by omega
    subst this
    exact ⟨a, hg, hp⟩
  · rintro ⟨a, hg, hp⟩
    exact ⟨i, a, by omega, hg, hp⟩

theorem zip_get?_eq_some {α β : Type} :
    ∀ {ps : List α} {cs : List β} {i : ℕ} {a : α} {b : β},
      (ps.zip cs).get? i = some (a, b) ↔ ps.get? i = some a ∧ cs.get? i = some b := by
  intro ps
  induction ps with
  | nil => intro cs i a b; simp
  | cons x xs ih =>
      intro cs i a b
      cases cs with
      | nil => simp
      | cons y ys =>
          cases i with
          | zero =>
              simp only [List.zip_cons_cons, List.get?]
              constructor
              · intro h; injection h with h; injection h with h1 h2; subst h1; subst h2; exact ⟨rfl, rfl⟩
              · rintro ⟨h1, h2⟩; injection h1 with h1; injection h2 with h2; subst h1; subst h2; rfl
          | succ i' =>
              simpa using ih

theorem newline_char_clean (c : Char) :
    (if c = '\n' then ' ' else c) ≠ '\n' := by
  by_cases hc : c = '\n' <;> simp [hc]

theorem newline_not_mem_cleanName (s : String) : '\n' ∉ (cleanName s).data := by
  intro h
  simp only [cleanName] at h
  rcases List.mem_map.1 h with ⟨c, _, hc⟩
  exact newline_char_clean c hc

theorem cleanName_cleanName (s : String) : cleanName (cleanName s) = cleanName s := by
  simp only [cleanName, List.map_map]
  congr 1
  apply List.map_congr_left
  intro c _
  by_cases hc : c = '\n' <;> simp [hc, Function.comp]

theorem cleanChars_eq_of_no_space :
    ∀ (l m : List Char), ' ' ∉ m →
      l.map (fun ch => if ch = '\n' then ' ' else ch) = m → l = m := by
  intro l
  induction l with
  | nil =>
      intro m _ h
      simpa using h
  | cons c cs ih =>
      intro m hm h
      cases m with
      | nil => simp at h
      | cons tc tcs =>
          simp only [List.map_cons, List.cons.injEq] at h
          have h1 : c = tc := by
            by_cases hc : c = '\n'
            · exfalso
              apply hm
              rw [← h.1]
              simp [hc]
            · rw [← h.1]; simp [hc]
          have h2 := ih tcs (fun hmem => hm (List.mem_cons_of_mem _ hmem)) h.2
          simp [h1, h2]

theorem cleanName_eq_of_no_space {s t : String} (ht : ' ' ∉ t.data)
    (h : cleanName s = t) : s = t := by
  have hdata : s.data.map (fun ch => if ch = '\n' then ' ' else ch) = t.data := by
    rw [← h]; rfl
  have hst := cleanChars_eq_of_no_space s.data t.data ht hdata
  cases s with
  | mk sd =>
      cases t with
      | mk td => exact congrArg String.mk hst

theorem getCol_eq_none_of_not_mem {d : Dataset} {name : String}
    (h : name ∉ colNames d) : getCol d name = none := by
  simp only [getCol, Option.map_eq_none']
  rw [List.find?_eq_none]
  intro c hc
  simp only [beq_iff_eq]
  intro hcn
  exact h (hcn ▸ List.mem_map_of_mem (fun c => c.1) hc)

theorem getCol_isSome_of_mem {d : Dataset} {name : String}
    (h : name ∈ colNames d) : ∃ cells, getCol d name = some cells := by
  rcases List.mem_map.1 h with ⟨c, hc, hcn⟩
  have : ∃ c', d.cols.find? (fun c => c.1 == name) = some c' := by
    rw [← Option.isSome_iff_exists]
    rw [List.find?_isSome]
    exact ⟨c, hc, by simp [hcn]⟩
  rcases this with ⟨c', hc'⟩
  exact ⟨c'.2, by simp [getCol, hc']⟩

/-! ## C5: the verdict is true iff every issue category is empty -/

/-- C5: for every input dataset, the boolean verdict returned by
`validate_data` is true iff each of the five issue categories in the
returned report is an empty list. -/
theorem validate_passed_iff_all_empty (d : Dataset) :
    (validate_data d).1 = true ↔
      ((validate_data d).2.missing_values = [] ∧
       (validate_data d).2.data_type_issues = [] ∧
       (validate_data d).2.price_below_cost = [] ∧
       (validate_data d).2.column_name_issues = [] ∧
       (validate_data d).2.special_character_issues = []) := by
  have h1 : (validate_data d).1 = (validate_data d).2.passed := rfl
  rw [h1]
  simp only [Issues.passed, Bool.and_eq_true, List.isEmpty_iff_eq_nil]
  tauto

/-! ## C9: column-name cleaning is idempotent and value-preserving -/

theorem getD_map_cleanName :
    ∀ (l : List String) (k : ℕ), (l.map cleanName).getD k "" = cleanName (l.getD k "") := by
  intro l
  induction l with
  | nil => intro k; simp [cleanName]
  | cons s ss ih =>
      intro k
      cases k with
      | zero => simp
      | succ k' => simpa using ih k'

/-- C9: `clean_column_names` is idempotent, never touches cell values, and
rewrites each column name character-wise, turning every embedded newline
into a single space and keeping every other character. -/
theorem clean_column_names_idempotent (d : Dataset) :
    clean_column_names (clean_column_names d) = clean_column_names d
    ∧ (clean_column_names d).cols.map Prod.snd = d.cols.map Prod.snd
    ∧ ∀ k i, ((colNames (clean_column_names d)).getD k "").data.get? i
        = (((colNames d).getD k "").data.get? i).map
            (fun ch => if ch = '\n' then ' ' else ch) := by
  refine ⟨?_, ?_, ?_⟩
  · simp only [clean_column_names, List.map_map]
    congr 1
    apply List.map_congr_left
    intro c _
    simp [Function.comp, cleanName_cleanName]
  · simp only [clean_column_names, List.map_map]
    apply List.map_congr_left
    intro c _
    rfl
  · intro k i
    have hnames : colNames (clean_column_names d) = (colNames d).map cleanName := by
      simp [colNames, clean_column_names, List.map_map, Function.comp]
    rw [hnames, getD_map_cleanName]
    simp [cleanName, List.get?_map]

/-! ## The two outcomes of a pipeline run -/

theorem process_inventory_ok_cases {d : Dataset} {od : Option Dataset} {r : Results}
    (h : process_inventory d = .ok (od, r)) :
    (isEmptyDf d = true ∧ od = none ∧
      r = { success := false, validation_passed := false, validation_issues := none,
            error_message := some "The inventory file is empty",
            records_processed := 0, records_with_issues := 0 }) ∨
    (isEmptyDf d = false ∧ ∃ d2, convert_data_types (clean_column_names d) = .ok d2 ∧
      od = some (fix_missing_values d2) ∧
      r = { success := true,
            validation_passed := (validate_data (clean_column_names d)).1,
            validation_issues := some (validate_data (clean_column_names d)).2,
            error_message := none, records_processed := nrows d,
            records_with_issues :=
              countRecordsWithIssues (validate_data (clean_column_names d)).2 }) := by
  unfold process_inventory at h
  by_cases he : isEmptyDf d
  · left
    simp only [he, if_true] at h
    injection h with h
    injection h with h1 h2
    exact ⟨he, h1.symm, h2.symm⟩
  · right
    simp only [he, if_false, Bool.false_eq_true] at h
    cases hconv : convert_data_types (clean_column_names d) with
    | error e => rw [hconv] at h; exact absurd h (by simp)
    | ok d2 =>
        rw [hconv] at h
        injection h with h
        injection h with h1 h2
        exact ⟨by simpa using he, d2, rfl, h1.symm, h2.symm⟩

/-! ## C8: an empty dataset fails fast -/

/-- C8: on an empty input dataset the run fails fast: no dataset is
returned, the outcome has `success = false` and a non-empty descriptive
error message, and no validation issues are recorded (validation,
transformation and partitioning never run). -/
theorem process_inventory_empty_fails (d : Dataset) (h : isEmptyDf d = true) :
    process_inventory d = .ok (none,
      { success := false, validation_passed := false, validation_issues := none,
        error_message := some "The inventory file is empty",
        records_processed := 0, records_with_issues := 0 })
    ∧ "The inventory file is empty" ≠ "" := by
  constructor
  · unfold process_inventory
    simp [h]
  · decide

theorem process_inventory_empty_fails_witness :
    process_inventory (⟨[]⟩ : Dataset) = .ok (none,
      { success := false, validation_passed := false, validation_issues := none,
        error_message := some "The inventory file is empty",
        records_processed := 0, records_with_issues := 0 })
    ∧ "The inventory file is empty" ≠ "" :=
  process_inventory_empty_fails ⟨[]⟩ rfl

/-! ## C1: the pipeline cleans names before validating, so raw
newline-bearing column names are never reported -/

/-- C1 (amended): in every completed `process_inventory` run the
`column_name_issues` category of the reported issues is empty, because
column names are normalized before validation; newline detection therefore
operates on the post-cleaned names, not the raw ones. -/
theorem pipeline_column_name_issues_empty (d : Dataset) (od : Option Dataset)
    (r : Results) (h : process_inventory d = .ok (od, r)) (is : Issues)
    (his : r.validation_issues = some is) : is.column_name_issues = [] := by
  rcases process_inventory_ok_cases h with ⟨_, _, hr⟩ | ⟨_, d2, _, _, hr⟩
  · rw [hr] at his
    simp at his
  · rw [hr] at his
    simp only [Option.some.injEq] at his
    have hval : (validate_data (clean_column_names d)).2.column_name_issues
        = (colNames (clean_column_names d)).filter (fun c => c.data.contains '\n') := rfl
    rw [← his, hval]
    rw [List.filter_eq_nil]
    intro name hname
    have hcn : colNames (clean_column_names d) = (colNames d).map cleanName := by
      simp [colNames, clean_column_names, List.map_map, Function.comp]
    rw [hcn] at hname
    rcases List.mem_map.1 hname with ⟨orig, _, horig⟩
    subst horig
    simpa using newline_not_mem_cleanName orig

theorem pipeline_column_name_issues_empty_witness :
    (⟨[], [], [], [], []⟩ : Issues).column_name_issues = [] :=
  pipeline_column_name_issues_empty ⟨[("Stock\n#", [Value.str "S1"])]⟩
    (some ⟨[("Stock #", [Value.str "S1"])]⟩)
    { success := true, validation_passed := true,
      validation_issues := some ⟨[], [], [], [], []⟩, error_message := none,
      records_processed := 1, records_with_issues := 0 }
    (by decide) ⟨[], [], [], [], []⟩ (by decide)

/-- C1 counterexample to the claim as stated: the raw column name
`"Stock\n#"` contains an embedded newline, yet the pipeline run completes
with an empty `column_name_issues` category — the original name is not
reported. -/
theorem raw_newline_name_not_reported :
    ((process_inventory ⟨[("Stock\n#", [Value.str "S1"])]⟩).toOption.bind
      (fun p => p.2.validation_issues)).map Issues.column_name_issues = some []
    ∧ ("Stock\n#" : String).data.contains '\n' = true := by
  constructor
  · decide
  · decide

/-! ## C3: the J.D. Power typed-column rules key on the raw,
newline-embedded names -/

/-- C3 (amended): if a column named `"J.D. Power\nTrade In"` or
`"J.D. Power\nRetail Clean"` — the raw, pre-normalization names with the
embedded newline — is present and has a non-null value that cannot be
parsed as a number, `validate_data` produces a `data_type_issues` entry for
that column listing the failing row indices.  (The rules match only these
raw names, not the normalized ones.) -/
theorem jdpower_type_rule_fires_on_raw_name (d : Dataset) (col : String)
    (cells : List Value)
    (hcol : col = "J.D. Power\nTrade In" ∨ col = "J.D. Power\nRetail Clean")
    (hget : getCol d col = some cells)
    (hbad : badNumericRows cells ≠ []) :
    (⟨col, "numeric", badNumericRows cells⟩ : TypeEntry)
      ∈ (validate_data d).2.data_type_issues := by
  have hmem : (col, "numeric") ∈ expected_types := by
    rcases hcol with h | h <;> subst h <;> decide
  have hshow : (validate_data d).2.data_type_issues
      = expected_types.filterMap (fun ct =>
          match getCol d ct.1 with
          | none => none
          | some cells =>
              if ct.2 = "int" then
                let rows := badIntRows cells
                if rows.isEmpty then none else some ⟨ct.1, ct.2, rows⟩
              else
                let rows := badNumericRows cells
                if rows.isEmpty then none else some ⟨ct.1, ct.2, rows⟩) := rfl
  rw [hshow]
  rw [List.mem_filterMap]
  refine ⟨(col, "numeric"), hmem, ?_⟩
  simp only [hget]
  have : ("numeric" : String) ≠ "int" := by decide
  rw [if_neg this]
  simp only [List.isEmpty_iff]
  rw [if_neg hbad]

theorem jdpower_type_rule_fires_on_raw_name_witness :
    (⟨"J.D. Power\nTrade In", "numeric",
        badNumericRows [Value.str "abc"]⟩ : TypeEntry)
      ∈ (validate_data ⟨[("J.D. Power\nTrade In", [Value.str "abc"])]⟩).2.data_type_issues :=
  jdpower_type_rule_fires_on_raw_name ⟨[("J.D. Power\nTrade In", [Value.str "abc"])]⟩
    "J.D. Power\nTrade In" [Value.str "abc"] (Or.inl rfl) (by decide) (by decide)

/-- C3 counterexample to the claim as stated: on a dataset whose column
names are already normalized (`"J.D. Power Trade In"`, `"J.D. Power Retail
Clean"`, no newlines) and which holds unparsable non-null values, the
typed-column rules do not match and no `data_type_issues` entry at all is
produced. -/
theorem jdpower_type_rule_misses_normalized_names :
    (validate_data ⟨[("J.D. Power Trade In", [Value.str "abc"]),
        ("J.D. Power Retail Clean", [Value.str "xyz"])]⟩).2.data_type_issues = [] := by
  decide

/-! ## C4: membership in price_below_cost -/

theorem getD_eq_get?_getD {α : Type} :
    ∀ (l : List α) (i : ℕ) (d : α), l.getD i d = (l.get? i).getD d := by
  intro l
  induction l with
  | nil => intro i d; cases i <;> rfl
  | cons a as ih =>
      intro i d
      cases i with
      | zero => rfl
      | succ i' => simpa using ih i' d

/-- C4: with both `Price` and `Unit Cost` columns present, a row index is
in `price_below_cost` iff, after numeric coercion, both values at that row
are non-null and the price is strictly below the cost. -/
theorem price_below_cost_iff (d : Dataset)
    (hp : "Price" ∈ colNames d) (hc : "Unit Cost" ∈ colNames d) (i : ℕ) :
    i ∈ (validate_data d).2.price_below_cost ↔
      ∃ p c, colNumAt d "Price" i = some p ∧ colNumAt d "Unit Cost" i = some c
        ∧ p < c := by
  rcases getCol_isSome_of_mem hp with ⟨ps, hps⟩
  rcases getCol_isSome_of_mem hc with ⟨cs, hcs⟩
  have hpbc : (validate_data d).2.price_below_cost
      = (match getCol d "Price", getCol d "Unit Cost" with
         | some ps, some cs => idxWhere pbcPred (ps.zip cs)
         | _, _ => []) := rfl
  rw [hpbc, hps, hcs]
  show i ∈ idxWhere pbcPred (ps.zip cs) ↔ _
  rw [mem_idxWhere]
  unfold colNumAt
  rw [hps, hcs]
  simp only [Option.some_bind]
  constructor
  · rintro ⟨⟨a, b⟩, hg, hpred⟩
    rw [zip_get?_eq_some] at hg
    unfold pbcPred at hpred
    cases hta : toNumeric a with
    | none => rw [hta] at hpred; simp at hpred
    | some p =>
        cases htb : toNumeric b with
        | none => rw [hta, htb] at hpred; simp at hpred
        | some c =>
            rw [hta, htb] at hpred
            simp only [decide_eq_true_eq] at hpred
            refine ⟨p, c, ?_, ?_, hpred⟩
            · rw [getD_eq_get?_getD, hg.1]
              exact hta
            · rw [getD_eq_get?_getD, hg.2]
              exact htb
  · rintro ⟨p, c, hp2, hc2, hlt⟩
    cases hga : ps.get? i with
    | none =>
        rw [getD_eq_get?_getD, hga] at hp2
        simp [toNumeric] at hp2
    | some a =>
        cases hgb : cs.get? i with
        | none =>
            rw [getD_eq_get?_getD, hgb] at hc2
            simp [toNumeric] at hc2
        | some b =>
            rw [getD_eq_get?_getD, hga] at hp2
            rw [getD_eq_get?_getD, hgb] at hc2
            refine ⟨(a, b), zip_get?_eq_some.2 ⟨hga, hgb⟩, ?_⟩
            unfold pbcPred
            simp only [Option.getD_some] at hp2 hc2
            rw [hp2, hc2]
            simp [hlt]

theorem price_below_cost_iff_witness :
    0 ∈ (validate_data ⟨[("Price", [Value.num 1]),
        ("Unit Cost", [Value.num 2])]⟩).2.price_below_cost ↔
      ∃ p c, colNumAt ⟨[("Price", [Value.num 1]), ("Unit Cost", [Value.num 2])]⟩
          "Price" 0 = some p
        ∧ colNumAt ⟨[("Price", [Value.num 1]), ("Unit Cost", [Value.num 2])]⟩
          "Unit Cost" 0 = some c
        ∧ p < c :=
  price_below_cost_iff ⟨[("Price", [Value.num 1]), ("Unit Cost", [Value.num 2])]⟩
    (by decide) (by decide) 0

/-! ## C6: the distinct-affected-rows count -/

theorem foldl_union_eq {α : Type} (f : α → List ℕ) :
    ∀ (l : List α) (s : Finset ℕ),
      l.foldl (fun acc e => acc ∪ (f e).toFinset) s = s ∪ rowsUnionList (l.map f) := by
  intro l
  induction l with
  | nil => intro s; simp [rowsUnionList]
  | cons a as ih =>
      intro s
      simp only [List.foldl_cons, List.map_cons, rowsUnionList, List.foldr_cons]
      rw [ih]
      simp only [rowsUnionList]
      rw [Finset.union_assoc]

theorem countRecordsWithIssues_eq_card (is : Issues) :
    countRecordsWithIssues is = (allAffectedRows is).card := by
  simp only [countRecordsWithIssues, allAffectedRows]
  rw [foldl_union_eq, foldl_union_eq, foldl_union_eq]
  simp [Finset.empty_union, Finset.union_assoc]

/-- C6: in every completed pipeline run, `records_with_issues` is the
cardinality of the union of affected row indices across exactly the four
row-scoped categories; `column_name_issues` never contributes (changing it
arbitrarily leaves the count unchanged). -/
theorem records_with_issues_eq_union_card (d : Dataset) (od : Option Dataset)
    (r : Results) (h : process_inventory d = .ok (od, r)) (hs : r.success = true) :
    ∃ is, r.validation_issues = some is
      ∧ r.records_with_issues = (allAffectedRows is).card
      ∧ ∀ l, countRecordsWithIssues { is with column_name_issues := l }
          = r.records_with_issues := by
  rcases process_inventory_ok_cases h with ⟨_, _, hr⟩ | ⟨_, d2, _, _, hr⟩
  · rw [hr] at hs
    simp at hs
  · refine ⟨(validate_data (clean_column_names d)).2, by rw [hr], ?_, ?_⟩
    · rw [hr]
      exact countRecordsWithIssues_eq_card _
    · intro l
      rw [hr]
      rfl

theorem records_with_issues_eq_union_card_witness :
    ∃ is, (Results.mk true true (some ⟨[], [], [], [], []⟩) none 1 0).validation_issues
        = some is
      ∧ (Results.mk true true (some ⟨[], [], [], [], []⟩) none 1 0).records_with_issues
        = (allAffectedRows is).card
      ∧ ∀ l, countRecordsWithIssues ⟨is.missing_values, is.data_type_issues,
            is.price_below_cost, l, is.special_character_issues⟩
          = (Results.mk true true (some ⟨[], [], [], [], []⟩) none 1 0).records_with_issues :=
  records_with_issues_eq_union_card ⟨[("Make", [Value.str "Ford"])]⟩
    (some ⟨[("Make", [Value.str "Ford"])]⟩)
    (Results.mk true true (some ⟨[], [], [], [], []⟩) none 1 0)
    (by decide) rfl

/-! ## C2: type conversion — null coercion and the nullable-integer cast -/

theorem forall2_map_self {α β : Type} {R : α → β → Prop} {g : α → β} :
    ∀ {l : List α}, (∀ a ∈ l, R a (g a)) → List.Forall₂ R l (l.map g) := by
  intro l
  induction l with
  | nil => intro _; simp
  | cons a as ih =>
      intro h
      simp only [List.map_cons]
      exact List.Forall₂.cons (h a (by simp))
        (ih fun b hb => h b (by simp [hb]))

theorem convert_cols_ok :
    ∀ (l : List (String × List Value)),
      (∀ c ∈ l, lookupExpected c.1 = some "int" →
        ∀ v ∈ c.2, (toNumeric v).all (fun q => decide (q.den = 1)) = true) →
      ∃ l', mapExcept convertStep l = .ok l'
        ∧ List.Forall₂ convertedColumnSpec l l' := by
  intro l
  induction l with
  | nil => intro _; exact ⟨[], rfl, List.Forall₂.nil⟩
  | cons c cs ih =>
      intro h
      have hc : ∃ c', convertStep c = .ok c' ∧ convertedColumnSpec c c' := by
        cases hl : lookupExpected c.1 with
        | none =>
            refine ⟨c, by simp [convertStep, hl], rfl, Or.inl ⟨hl, rfl⟩⟩
        | some ty =>
            by_cases hty : ty = "int"
            · subst hty
              have hall : (c.2.map toNumeric).all
                  (fun o => o.all (fun q => decide (q.den = 1))) = true := by
                rw [List.all_eq_true]
                intro o ho
                rcases List.mem_map.1 ho with ⟨v, hv, rfl⟩
                exact h c (by simp) hl v hv
              refine ⟨(c.1, (c.2.map toNumeric).map (fun o =>
                  match o with
                  | some q => Value.int q.num
                  | none => Value.null)), ?_, rfl, Or.inr ⟨"int", hl, ?_⟩⟩
              · simp [convertStep, hl, convertColumn, hall, Except.map]
              · rw [List.map_map]
                apply forall2_map_self
                intro v _
                constructor
                · intro hnone
                  simp [Function.comp, hnone]
                · intro q hq
                  simp [Function.comp, hq]
            · refine ⟨(c.1, c.2.map (fun v =>
                  match toNumeric v with
                  | some q => Value.num q
                  | none => Value.null)), ?_, rfl, Or.inr ⟨ty, hl, ?_⟩⟩
              · simp [convertStep, hl, convertColumn, hty, Except.map]
              · apply forall2_map_self
                intro v _
                constructor
                · intro hnone
                  simp [hnone]
                · intro q hq
                  simp [hq, hty]
      rcases hc with ⟨c', hstep, hspec⟩
      rcases ih (fun b hb => h b (List.mem_cons_of_mem _ hb)) with ⟨cs', hmap, hf2⟩
      refine ⟨c' :: cs', ?_, List.Forall₂.cons hspec hf2⟩
      simp [mapExcept, hstep, hmap, Except.map]

/-- C2 (amended): whenever every parseable value in each integer-typed
schema column present is a whole number, `convert_data_types` succeeds, and
column-wise the result satisfies the conversion contract: for each schema
column present every value that cannot be parsed as a number becomes null
and parsed values become a nullable integer (`int`) or a number
(`numeric`); other columns are untouched.  Without the whole-number
proviso the `Int64` cast can raise and abort the run (see the
counterexample), so the operation is not total. -/
theorem convert_data_types_characterization (d : Dataset)
    (h : ∀ c ∈ d.cols, lookupExpected c.1 = some "int" →
        ∀ v ∈ c.2, (toNumeric v).all (fun q => decide (q.den = 1)) = true) :
    ∃ d', convert_data_types d = .ok d'
      ∧ List.Forall₂ convertedColumnSpec d.cols d'.cols := by
  rcases convert_cols_ok d.cols h with ⟨l', hmap, hf⟩
  exact ⟨⟨l'⟩, by simp [convert_data_types, hmap, Except.map], hf⟩

theorem convert_data_types_characterization_witness :
    ∃ d', convert_data_types ⟨[("Year", [Value.str "2020", Value.str "abc", Value.null]),
        ("Make", [Value.str "Ford"])]⟩ = .ok d'
      ∧ List.Forall₂ convertedColumnSpec
          (⟨[("Year", [Value.str "2020", Value.str "abc", Value.null]),
            ("Make", [Value.str "Ford"])]⟩ : Dataset).cols d'.cols :=
  convert_data_types_characterization
    ⟨[("Year", [Value.str "2020", Value.str "abc", Value.null]),
      ("Make", [Value.str "Ford"])]⟩ (by decide)

/-- C2 counterexample to the claim as stated: the value `"2.5"` in the
integer column `Year` parses as a number (so the coerce-to-null clause does
not apply), yet the conversion raises the `Int64` cast error — a single
value aborts the run, so `convert_data_types` is not total. -/
theorem convert_data_types_raises_on_nonintegral :
    (convert_data_types ⟨[("Year", [Value.str "2.5"])]⟩).isOk = false
    ∧ toNumeric (Value.str "2.5") ≠ none := by
  constructor
  · decide
  · decide

/-! ## C7: the skip-flagged split partitions the annotated rows -/

theorem find?_append_of_none {l₁ l₂ : List (String × List Value)} {name : String}
    (h : name ∉ l₁.map (fun c => c.1)) :
    (l₁ ++ l₂).find? (fun c => c.1 == name) = l₂.find? (fun c => c.1 == name) := by
  induction l₁ with
  | nil => simp
  | cons c cs ih =>
      have hc : ¬(c.1 == name) = true := by
        simp only [beq_iff_eq]
        intro he
        exact h (by simp [he])
      have hstep : List.find? (fun c => c.1 == name) (c :: (cs ++ l₂))
          = List.find? (fun c => c.1 == name) (cs ++ l₂) :=
        List.find?_cons_of_neg _ hc
      rw [List.cons_append, hstep]
      exact ih (fun hm => h (by simp; right; simpa using hm))

theorem getCol_mark_has_issues (d : Dataset) (is : Issues)
    (hnd : "has_issues" ∉ colNames d) :
    getCol (mark_records_with_issues d is) "has_issues"
      = some ((List.range (nrows d)).map (fun i => Value.bool (rowFlagged is i))) := by
  unfold getCol mark_records_with_issues
  rw [find?_append_of_none hnd]
  rfl

theorem get?_range_eq (n i : ℕ) :
    (List.range n).get? i = if i < n then some i else none := by
  by_cases h : i < n
  · rw [List.get?_range h, if_pos h]
  · rw [if_neg h]
    rw [List.get?_eq_none]
    simpa using Nat.le_of_not_lt h

/-- C7: for an annotated dataset under the default skip-flagged policy, the
kept (clean) and skipped (flagged) row labels are disjoint, together they
are exactly the original row labels, every flagged row has `has_issues =
true`, and every clean row has `has_issues = false`. -/
theorem annotate_and_split_partition (d : Dataset) (is : Issues)
    (hnd : "has_issues" ∉ colNames d) :
    (∀ i, i ∈ uploadCleanRows (mark_records_with_issues d is) true →
        i ∉ flaggedRows (mark_records_with_issues d is))
    ∧ (∀ i, (i ∈ uploadCleanRows (mark_records_with_issues d is) true ∨
          i ∈ flaggedRows (mark_records_with_issues d is)) ↔ i < nrows d)
    ∧ (∀ i, i ∈ flaggedRows (mark_records_with_issues d is) →
        getCell (mark_records_with_issues d is) "has_issues" i
          = some (Value.bool true))
    ∧ (∀ i, i ∈ uploadCleanRows (mark_records_with_issues d is) true →
        getCell (mark_records_with_issues d is) "has_issues" i
          = some (Value.bool false)) := by
  have hcol := getCol_mark_has_issues d is hnd
  have hclean : uploadCleanRows (mark_records_with_issues d is) true
      = idxWhere (fun v => !(decide (v = Value.bool true)))
          ((List.range (nrows d)).map (fun i => Value.bool (rowFlagged is i))) := by
    simp [uploadCleanRows, hcol]
  have hflag : flaggedRows (mark_records_with_issues d is)
      = idxWhere (fun v => decide (v = Value.bool true))
          ((List.range (nrows d)).map (fun i => Value.bool (rowFlagged is i))) := by
    simp [flaggedRows, hcol]
  have hget : ∀ i, ((List.range (nrows d)).map
        (fun i => Value.bool (rowFlagged is i))).get? i
      = if i < nrows d then some (Value.bool (rowFlagged is i)) else none := by
    intro i
    rw [List.get?_map, get?_range_eq]
    by_cases h : i < nrows d <;> simp [h]
  refine ⟨?_, ?_, ?_, ?_⟩
  · intro i h1 h2
    rw [hclean, mem_idxWhere] at h1
    rw [hflag, mem_idxWhere] at h2
    rcases h1 with ⟨a, hga, hpa⟩
    rcases h2 with ⟨b, hgb, hpb⟩
    rw [hga] at hgb
    injection hgb with hab
    subst hab
    simp only [decide_eq_true_eq] at hpb
    simp only [Bool.not_eq_true', decide_eq_false_iff_not] at hpa
    exact hpa hpb
  · intro i
    constructor
    · rintro (h1 | h1)
      · rw [hclean, mem_idxWhere] at h1
        rcases h1 with ⟨a, hga, _⟩
        by_contra hni
        rw [hget i, if_neg hni] at hga
        exact Option.noConfusion hga
      · rw [hflag, mem_idxWhere] at h1
        rcases h1 with ⟨a, hga, _⟩
        by_contra hni
        rw [hget i, if_neg hni] at hga
        exact Option.noConfusion hga
    · intro hi
      by_cases hf : rowFlagged is i
      · right
        rw [hflag, mem_idxWhere]
        refine ⟨Value.bool true, ?_, by simp⟩
        rw [hget i, if_pos hi, hf]
      · left
        rw [hclean, mem_idxWhere]
        refine ⟨Value.bool false, ?_, by simp⟩
        rw [hget i, if_pos hi]
        simp [Bool.eq_false_iff.2 hf]
  · intro i h1
    rw [hflag, mem_idxWhere] at h1
    rcases h1 with ⟨a, hga, hpa⟩
    simp only [decide_eq_true_eq] at hpa
    unfold getCell
    rw [hcol]
    simp only [Option.some_bind]
    rw [hga, hpa]
  · intro i h1
    rw [hclean, mem_idxWhere] at h1
    rcases h1 with ⟨a, hga, hpa⟩
    simp only [Bool.not_eq_true', decide_eq_false_iff_not] at hpa
    unfold getCell
    rw [hcol]
    simp only [Option.some_bind]
    rw [hga]
    have hg := hga
    by_cases hi : i < nrows d
    · rw [hget i, if_pos hi] at hg
      injection hg with ha
      cases hfv : rowFlagged is i with
      | true => rw [hfv] at ha; exact absurd ha.symm hpa
      | false => rw [hfv] at ha; rw [← ha]
    · rw [hget i, if_neg hi] at hg
      exact Option.noConfusion hg

theorem annotate_and_split_partition_witness :
    getCell (mark_records_with_issues ⟨[("Price", [Value.num 1])]⟩
        ⟨[], [], [0], [], []⟩) "has_issues" 0 = some (Value.bool true) :=
  (annotate_and_split_partition ⟨[("Price", [Value.num 1])]⟩
    ⟨[], [], [0], [], []⟩ (by decide)).2.2.1 0 (by decide)

/-! ## C10: a fully clean dataset uploads in full -/

theorem colNames_mapCols (d : Dataset) (g : String × List Value → String × List Value)
    (f : String → String) (hg : ∀ c, (g c).1 = f c.1) :
    colNames ⟨d.cols.map g⟩ = (colNames d).map f := by
  simp only [colNames, List.map_map]
  apply List.map_congr_left
  intro c _
  exact hg c

theorem nrows_mapCols (d : Dataset) (g : String × List Value → String × List Value)
    (hg : ∀ c, (g c).2.length = c.2.length) :
    nrows ⟨d.cols.map g⟩ = nrows d := by
  cases hc : d.cols with
  | nil => simp [nrows, hc]
  | cons c cs => simp [nrows, hc, hg]

theorem fixColumn_fst (c : String × List Value) : (fixColumn c).1 = c.1 := by
  unfold fixColumn
  split
  · rfl
  · split
    · split <;> rfl
    · rfl

theorem fixColumn_len (c : String × List Value) : (fixColumn c).2.length = c.2.length := by
  unfold fixColumn
  split
  · simp
  · split
    · split <;> simp
    · rfl

theorem formatColumn_fst (c : String × List Value) :
    (formatColumn c).1 = cleanName c.1 := by
  unfold formatColumn
  split
  · rfl
  · split
    · rfl
    · split <;> rfl

theorem formatColumn_len (c : String × List Value) :
    (formatColumn c).2.length = c.2.length := by
  unfold formatColumn
  split
  · simp
  · split
    · simp
    · split <;> simp

theorem colNames_clean (d : Dataset) :
    colNames (clean_column_names d) = (colNames d).map cleanName :=
  colNames_mapCols d _ cleanName (fun _ => rfl)

theorem nrows_clean (d : Dataset) : nrows (clean_column_names d) = nrows d :=
  nrows_mapCols d _ (fun _ => rfl)

theorem colNames_fix (d : Dataset) : colNames (fix_missing_values d) = colNames d := by
  have h := colNames_mapCols d fixColumn id (fun c => fixColumn_fst c)
  simpa using h

theorem nrows_fix (d : Dataset) : nrows (fix_missing_values d) = nrows d :=
  nrows_mapCols d fixColumn fixColumn_len

theorem colNames_format (d : Dataset) :
    colNames (format_for_upload d) = (colNames d).map cleanName :=
  colNames_mapCols d formatColumn cleanName formatColumn_fst

theorem nrows_format (d : Dataset) : nrows (format_for_upload d) = nrows d :=
  nrows_mapCols d formatColumn formatColumn_len

theorem mapExcept_ok_forall2 {α β ε : Type} {f : α → Except ε β} :
    ∀ {l : List α} {l' : List β}, mapExcept f l = .ok l' →
      List.Forall₂ (fun a b => f a = .ok b) l l' := by
  intro l
  induction l with
  | nil =>
      intro l' h
      injection h with h
      rw [← h]
      exact List.Forall₂.nil
  | cons a as ih =>
      intro l' h
      unfold mapExcept at h
      cases hf : f a with
      | error e => rw [hf] at h; exact absurd h (by simp)
      | ok b =>
          rw [hf] at h
          cases hm : mapExcept f as with
          | error e => rw [hm] at h; simp [Except.map] at h
          | ok bs =>
              rw [hm] at h
              simp only [Except.map, Except.ok.injEq] at h
              rw [← h]
              exact List.Forall₂.cons hf (ih hm)

theorem convertStep_fst_len {c c' : String × List Value}
    (h : convertStep c = .ok c') : c'.1 = c.1 ∧ c'.2.length = c.2.length := by
  unfold convertStep at h
  cases hl : lookupExpected c.1 with
  | none =>
      rw [hl] at h
      injection h with h
      rw [← h]
      exact ⟨rfl, rfl⟩
  | some ty =>
      rw [hl] at h
      dsimp only at h
      unfold convertColumn at h
      by_cases hty : ty = "int"
      · rw [if_pos hty] at h
        dsimp only at h
        cases hcond : ((c.2.map toNumeric).all
            (fun o => o.all (fun q => decide (q.den = 1)))) with
        | true =>
            rw [hcond, if_pos rfl] at h
            simp only [Except.map, Except.ok.injEq] at h
            rw [← h]
            simp
        | false =>
            rw [hcond] at h
            simp [Except.map] at h
      · rw [if_neg hty] at h
        simp only [Except.map, Except.ok.injEq] at h
        rw [← h]
        simp

theorem forall2_convert_map_fst {l l' : List (String × List Value)}
    (h : List.Forall₂ (fun a b => convertStep a = .ok b) l l') :
    l'.map (fun c => c.1) = l.map (fun c => c.1) := by
  induction h with
  | nil => rfl
  | cons h1 _ ih => simp [ih, (convertStep_fst_len h1).1]

theorem forall2_convert_nrows {l l' : List (String × List Value)}
    (h : List.Forall₂ (fun a b => convertStep a = .ok b) l l') :
    nrows ⟨l'⟩ = nrows ⟨l⟩ := by
  cases h with
  | nil => rfl
  | cons h1 _ =>
      simp only [nrows]
      exact (convertStep_fst_len h1).2

theorem convert_preserves (d d' : Dataset) (h : convert_data_types d = .ok d') :
    colNames d' = colNames d ∧ nrows d' = nrows d := by
  unfold convert_data_types at h
  cases hm : mapExcept convertStep d.cols with
  | error e => rw [hm] at h; simp [Except.map] at h
  | ok l' =>
      rw [hm] at h
      simp only [Except.map, Except.ok.injEq] at h
      have hf2 := mapExcept_ok_forall2 hm
      rw [← h]
      exact ⟨forall2_convert_map_fst hf2, forall2_convert_nrows hf2⟩

/-- C10 (amended): for a dataset that carries no `has_issues` column of its
own and whose validation passes, upload preparation adds no annotation
columns (the prepared column set is exactly the name-normalized input
columns, so neither `has_issues` nor `issue_type` appears), and the
simulated upload reports `records_uploaded` equal to the number of
processed records for either value of the skip-flagged configuration. -/
theorem upload_all_when_validation_passes (d : Dataset) (df : Dataset) (r : Results)
    (h1 : process_inventory d = .ok (some df, r))
    (h2 : r.validation_passed = true)
    (h3 : "has_issues" ∉ colNames d) :
    prepare_for_upload d = .ok (some (format_for_upload df), r)
    ∧ colNames (format_for_upload df) = (colNames d).map cleanName
    ∧ "has_issues" ∉ colNames (format_for_upload df)
    ∧ ∀ skip, (upload_inventory (format_for_upload df) skip).records_uploaded
        = r.records_processed := by
  rcases process_inventory_ok_cases h1 with ⟨_, hod, _⟩ | ⟨hne, d2, hconv, hod, hr⟩
  · exact absurd hod (by simp)
  · have hdf : df = fix_missing_values d2 := by
      injection hod with hod
    have hsuc : r.success = true := by rw [hr]
    have hprep : prepare_for_upload d = .ok (some (format_for_upload df), r) := by
      unfold prepare_for_upload
      rw [h1]
      simp [hsuc, h2]
    have hc2 := convert_preserves _ _ hconv
    have hnames : colNames (format_for_upload df) = (colNames d).map cleanName := by
      rw [colNames_format df, hdf, colNames_fix d2, hc2.1, colNames_clean, List.map_map]
      apply List.map_congr_left
      intro s _
      simp [Function.comp, cleanName_cleanName]
    have hnot : "has_issues" ∉ colNames (format_for_upload df) := by
      rw [hnames]
      intro hmem
      rcases List.mem_map.1 hmem with ⟨s, hs, hcs⟩
      have hss := cleanName_eq_of_no_space (by decide) hcs
      exact h3 (hss ▸ hs)
    have hnrows : nrows (format_for_upload df) = nrows d := by
      rw [nrows_format df, hdf, nrows_fix d2, hc2.2, nrows_clean]
    have hproc : r.records_processed = nrows d := by rw [hr]
    refine ⟨hprep, hnames, hnot, ?_⟩
    intro skip
    unfold upload_inventory uploadCleanRows
    cases skip with
    | false => simp [hnrows, hproc]
    | true =>
        rw [getCol_eq_none_of_not_mem hnot]
        simp [hnrows, hproc]

theorem upload_all_when_validation_passes_witness :
    prepare_for_upload ⟨[("Make", [Value.str "Ford"])]⟩
      = .ok (some (format_for_upload ⟨[("Make", [Value.str "Ford"])]⟩),
          Results.mk true true (some ⟨[], [], [], [], []⟩) none 1 0)
    ∧ colNames (format_for_upload ⟨[("Make", [Value.str "Ford"])]⟩)
      = (colNames ⟨[("Make", [Value.str "Ford"])]⟩).map cleanName
    ∧ "has_issues" ∉ colNames (format_for_upload ⟨[("Make", [Value.str "Ford"])]⟩)
    ∧ ∀ skip, (upload_inventory (format_for_upload ⟨[("Make", [Value.str "Ford"])]⟩)
        skip).records_uploaded
      = (Results.mk true true (some ⟨[], [], [], [], []⟩) none 1 0).records_processed :=
  upload_all_when_validation_passes ⟨[("Make", [Value.str "Ford"])]⟩
    ⟨[("Make", [Value.str "Ford"])]⟩
    (Results.mk true true (some ⟨[], [], [], [], []⟩) none 1 0)
    (by decide) rfl (by decide)

/-- C10 counterexample to the claim as stated: a dataset whose only column
is named `has_issues` (a single row holding `true`) passes validation —
no rule inspects that column — and upload preparation adds nothing, yet
under the default skip-flagged configuration the simulated upload filters
on that pre-existing column and reports 0 of 1 records uploaded. -/
theorem clean_dataset_not_fully_uploaded :
    ((prepare_for_upload ⟨[("has_issues", [Value.bool true])]⟩).toOption.bind
        (fun p => p.1)).map
        (fun df => (upload_inventory df true).records_uploaded) = some 0
    ∧ (process_inventory ⟨[("has_issues", [Value.bool true])]⟩).toOption.map
        (fun p => p.2.validation_passed) = some true
    ∧ (process_inventory ⟨[("has_issues", [Value.bool true])]⟩).toOption.map
        (fun p => p.2.records_processed) = some 1 := by
  refine ⟨?_, ?_, ?_⟩
  · decide
  · decide
  · decide
